import Mathlib

/-!
Verification of the web-scaler-proxy repository (a single-target HTTP reverse
proxy written in JavaScript on express/axios).  The JavaScript functions that
the claims refer to are shallowly embedded below as executable Lean
definitions over `List Char` / `String`.  JavaScript strings are modelled as
Lean strings (the sources are ASCII, so UTF-16 index arithmetic and Lean
character counts coincide); JavaScript objects whose keys matter are modelled
as association lists; JSON numbers are modelled as rationals.
-/

/-! ## Basic character and list utilities mirroring JavaScript semantics -/

/-- The double-quote character (written via its code point to keep string
literals in this file quote-free). -/
def dqC : Char := Char.ofNat 34

/-- The single-quote character. -/
def sqC : Char := Char.ofNat 39

/-- A one-character string holding a double quote. -/
def dqS : String := String.mk [dqC]

/-- Is `c` one of the two quote characters recognised by the attribute
regex `(['"])`? -/
def isQuote (c : Char) : Bool := c = dqC || c = sqC

/-- ASCII whitespace, as matched by the JavaScript regex class `\s`
(restricted to the ASCII range, which is all the claims exercise). -/
def isJsSpace (c : Char) : Bool :=
  c = Char.ofNat 32 || c = Char.ofNat 9 || c = Char.ofNat 10 ||
  c = Char.ofNat 13 || c = Char.ofNat 11 || c = Char.ofNat 12

/-- `String.prototype.split(sep)` for a one-character separator:
splits at every occurrence, keeping empty pieces (`''.split` gives `['']`). -/
def splitOnC (sep : Char) : List Char → List (List Char)
  | [] => [[]]
  | c :: cs =>
    match splitOnC sep cs with
    | [] => [[]]
    | piece :: rest =>
      if c = sep then [] :: piece :: rest else (c :: piece) :: rest

/-- `Array.prototype.join(sep)` for a (possibly multi-character) separator. -/
def joinSep (sep : List Char) : List (List Char) → List Char
  | [] => []
  | [x] => x
  | x :: y :: rest => x ++ sep ++ joinSep sep (y :: rest)

/-- `Array.prototype.join(sep)` for a one-character separator. -/
def joinC (sep : Char) (parts : List (List Char)) : List Char :=
  joinSep [sep] parts

/-- `String.prototype.trim()` (ASCII whitespace). -/
def jsTrimL (l : List Char) : List Char :=
  ((l.dropWhile isJsSpace).reverse.dropWhile isJsSpace).reverse

/-- `String.prototype.toLowerCase()` (ASCII). -/
def lowerL (l : List Char) : List Char := l.map Char.toLower

/-- `String.prototype.includes(pat)`: is `pat` a contiguous substring? -/
def containsSubB (pat : List Char) (l : List Char) : Bool :=
  (List.range (l.length + 1)).any (fun n => pat.isPrefixOf (l.drop n))

/-- `targetUrl.includes(proxyHost)` — JavaScript substring test on strings. -/
def jsIncludes (s sub : String) : Bool := containsSubB sub.data s.data

/-! ## JavaScript objects (association lists) -/

/-- First-match lookup in an association list; models reading a property of a
JavaScript object (parsed JSON objects and Node header maps have unique
keys, so first-match agrees with JavaScript). -/
def lookupL {α : Type} (k : String) : List (String × α) → Option α
  | [] => none
  | (k', v) :: rest => if k' = k then some v else lookupL k rest

/-- Does the object have key `k`? -/
def containsKeyL {α : Type} (k : String) (l : List (String × α)) : Bool :=
  (lookupL k l).isSome

/-- Object spread `{...a, ...b}`: keys of `b` override keys of `a`. -/
def spreadL {α : Type} (a b : List (String × α)) : List (String × α) :=
  a.filter (fun kv => !(containsKeyL kv.1 b)) ++ b

/-- `delete obj[k]` on an association list. -/
def deleteKeyL {α : Type} (k : String) (l : List (String × α)) :
    List (String × α) :=
  l.filter (fun kv => kv.1 ≠ k)

/-! ## JSON values and the stored configuration (`getConfig`, app.js 45-56) -/

/-- A JSON value, as far as the configuration file needs: strings, numbers
(modelled as rationals), booleans and null. -/
inductive JVal : Type
  | s (v : String)
  | n (v : ℚ)
  | b (v : Bool)
  | nullV
deriving DecidableEq

/-- A JavaScript object with JSON values. -/
def JObj : Type := List (String × JVal)

/-- The possible states of the stored `config.json` file, abstracting the
outcome of `fs.existsSync` / `fs.readFileSync` / `JSON.parse`:
the file is absent; present but blank (its `trim()` is empty); present but
not valid JSON (`JSON.parse` throws); or parses to a JSON object with the
given (possibly partial) set of keys. -/
inductive StoredFile : Type
  | absent
  | blank
  | malformed
  | jsonObject (o : JObj)

/-- The hard-coded `defaultConfig` object (app.js 37-43). -/
def defaultConfigJ : JObj :=
  [("targetUrl", JVal.s "https://www.google.com/"),
   ("scaleFactor", JVal.n 1),
   ("autoScroll", JVal.b false),
   ("scrollSpeed", JVal.n 50),
   ("scrollSequence", JVal.s "")]

/-- The five configuration keys. -/
def cfgKeys : List String :=
  ["targetUrl", "scaleFactor", "autoScroll", "scrollSpeed", "scrollSequence"]

/-- `getConfig()` (app.js 45-56): absent file returns the defaults; otherwise
the file is read and the result of parsing its trimmed content is merged
over the defaults by object spread, with any parse error caught and mapped
to the defaults.  A blank file parses the substituted empty-object literal,
so it also yields exactly the defaults. -/
def getConfig : StoredFile → JObj
  | StoredFile.absent => defaultConfigJ
  | StoredFile.blank => spreadL defaultConfigJ []
  | StoredFile.malformed => defaultConfigJ
  | StoredFile.jsonObject o => spreadL defaultConfigJ o

/-- The default value of a configuration key. -/
def defaultValFor (k : String) : JVal :=
  (lookupL k defaultConfigJ).getD (JVal.s "")

/-! ## `/report-height` handler (app.js 67-76) -/

/-- The process-lifetime `lastReportedHeight` value: initially the string
`N/A`, later a number of pixels. -/
inductive HeightState : Type
  | na
  | px (v : ℤ)
deriving DecidableEq

/-- `Math.round` as JavaScript defines it: round half toward positive
infinity. -/
def jsRound (q : ℚ) : ℤ := ⌊q + 1/2⌋

/-- The `/report-height` handler body (app.js 67-76): destructure `height`
from the JSON body; if it is truthy and of type number it is rounded and
stored and the response is 200, otherwise the response is 400 and the
stored height is untouched.  (Rationals model JSON numbers, which carry no
NaN once parsed from a JSON literal; a numeric value is truthy exactly when
it is nonzero.) -/
def reportHeightHandler (body : JObj) (last : HeightState) :
    ℕ × HeightState :=
  match lookupL "height" body with
  | some (JVal.n q) =>
      if q ≠ 0 then (200, HeightState.px (jsRound q)) else (400, last)
  | _ => (400, last)

/-! ## The reserved host-encoding path and its decoding (app.js 144-150) -/

/-- The reserved path marker `/--proxy-host--/`. -/
def proxyHostPrefixS : String := "/--proxy-host--/"

/-- Decoding an inbound path that starts with the reserved marker
(app.js 146-148): drop the marker, split the remainder on `/`, shift the
first piece off as the embedded host, and rebuild the remaining path as
`'/' + parts.join('/')`. -/
def decodeProxyPath (p : String) : String × String :=
  let parts := splitOnC '/' (p.data.drop proxyHostPrefixS.data.length)
  (String.mk (parts.headD []), String.mk ('/' :: joinC '/' parts.tail))

/-! ## A minimal model of WHATWG `URL` for http/https (Node `new URL`) -/

/-- The fields of a parsed URL that the proxy reads: `protocol` (with the
trailing colon, e.g. `https:`), `host`, `pathname` and `search`. -/
structure URLModel : Type where
  protocol : String
  host : String
  pathname : String
  search : String
deriving DecidableEq

/-- Parse the part of an http(s) URL after the `//`: the host runs to the
first `/`, `?` or `#`; an absent path is `/`; the query (with its `?`)
becomes `search`; a fragment is discarded.  Percent-encoding and host
normalisation are not modelled (the claims do not exercise them). -/
def parseHostPath (protocol : String) (rest : List Char) : URLModel :=
  let host := rest.takeWhile (fun c => !(c = '/' || c = '?' || c = '#'))
  let after := rest.drop host.length
  match after with
  | [] => ⟨protocol, String.mk host, "/", ""⟩
  | c :: _ =>
    if c = '/' then
      let nofrag := after.takeWhile (fun c => c ≠ '#')
      ⟨protocol, String.mk host,
       String.mk (nofrag.takeWhile (fun c => c ≠ '?')),
       String.mk (nofrag.dropWhile (fun c => c ≠ '?'))⟩
    else if c = '?' then
      ⟨protocol, String.mk host, "/",
       String.mk (after.takeWhile (fun c => c ≠ '#'))⟩
    else ⟨protocol, String.mk host, "/", ""⟩

/-- `new URL(loc, origin)` where the base is an origin (protocol + host,
path `/`) — exactly how the proxy resolves a `Location` header against
`target.origin` (app.js 166).  Handles absolute http(s) references,
protocol-relative (`//h/p`), root-relative (`/p`) and bare-relative
(`p`, resolved against the origin) forms. -/
def resolveLocation (loc : String) (baseProtocol baseHost : String) :
    URLModel :=
  if ("https://".data).isPrefixOf loc.data then
    parseHostPath "https:" (loc.data.drop 8)
  else if ("http://".data).isPrefixOf loc.data then
    parseHostPath "http:" (loc.data.drop 7)
  else if ("//".data).isPrefixOf loc.data then
    parseHostPath baseProtocol (loc.data.drop 2)
  else if ("/".data).isPrefixOf loc.data then
    let nofrag := loc.data.takeWhile (fun c => c ≠ '#')
    ⟨baseProtocol, baseHost,
     String.mk (nofrag.takeWhile (fun c => c ≠ '?')),
     String.mk (nofrag.dropWhile (fun c => c ≠ '?'))⟩
  else
    let nofrag := ('/' :: loc.data).takeWhile (fun c => c ≠ '#')
    ⟨baseProtocol, baseHost,
     String.mk (nofrag.takeWhile (fun c => c ≠ '?')),
     String.mk (nofrag.dropWhile (fun c => c ≠ '?'))⟩

/-- What the proxy hands back to the client for one upstream response,
looking only at the redirect branch (app.js 165-168). -/
inductive RedirectOutcome : Type
  | notRedirect
  | errorPage
  | redirect (status : ℕ) (location : String)
deriving DecidableEq

/-- The redirect branch (app.js 165-168): for status 301/302/307/308 the
`Location` header is resolved against the target origin and the client is
redirected, with the same status, to `location.pathname + location.search`.
A redirect without a `Location` makes `new URL(undefined, ...)` throw, which
the surrounding catch renders as a 500 error page. -/
def redirectBranch (status : ℕ) (location : Option String)
    (target : URLModel) : RedirectOutcome :=
  if status ∈ [301, 302, 307, 308] then
    match location with
    | none => RedirectOutcome.errorPage
    | some loc =>
      let u := resolveLocation loc target.protocol target.host
      RedirectOutcome.redirect status (u.pathname ++ u.search)
  else RedirectOutcome.notRedirect

/-! ## The pre-fetch part of the proxy handler (app.js 126-138) -/

/-- `new URL(s)` restricted to absolute http/https URLs, the only scheme
family the configuration uses; any other string is treated as the thrown
`TypeError` (`none`). -/
def parseHttpUrl (s : String) : Option URLModel :=
  if ("https://".data).isPrefixOf s.data then
    some (parseHostPath "https:" (s.data.drop 8))
  else if ("http://".data).isPrefixOf s.data then
    some (parseHostPath "http:" (s.data.drop 7))
  else none

/-- Outcome of the checks the proxy handler performs before any outbound
request is issued. -/
inductive PreFetchResult : Type
  | selfLoopError
  | invalidTargetError
  | okTarget (t : URLModel)
deriving DecidableEq

/-- The guard sequence at the top of the proxy handler (app.js 126-138):
first, if `config.targetUrl.includes(proxyHost)` the request is answered
with the 500 Configuration Error page and nothing else happens; otherwise
`new URL(config.targetUrl)` is attempted, a throw yielding the 500 Invalid
Target URL page; only then can an outbound fetch be built. -/
def proxyPreFetch (targetUrl proxyHost : String) : PreFetchResult :=
  if jsIncludes targetUrl proxyHost then PreFetchResult.selfLoopError
  else
    match parseHttpUrl targetUrl with
    | none => PreFetchResult.invalidTargetError
    | some t => PreFetchResult.okTarget t

/-! ## Outbound request headers (part_001 lines 137-151) -/

/-- The hard-coded browser `User-Agent` string. -/
def uaString : String :=
  "Mozilla/5.0 (Windows NT 10.0; Win64; x64) AppleWebKit/537.36 (KHTML, like Gecko) Chrome/91.0.4472.124 Safari/537.36"

/-- The outbound header object of the axios request (part_001 137-151):
`requestHeaders` is a copy of the inbound headers with `host` deleted, and
the final object spreads it under the substituted `host`, `origin`,
`user-agent`, `accept-encoding` and `referer` entries.  Node lowercases all
inbound header names, so keys here are lowercase.  The handler reads no
per-request state other than the configuration: in particular the source
contains no cookie jar, so any `cookie` entry comes solely from the inbound
request. -/
def buildOutboundHeaders (inbound : List (String × String))
    (targetHost targetOrigin referer : String) : List (String × String) :=
  spreadL (deleteKeyL "host" inbound)
    [("host", targetHost), ("origin", targetOrigin),
     ("user-agent", uaString),
     ("accept-encoding", "gzip, deflate, br"),
     ("referer", referer)]

/-! ## Set-Cookie rewriting (part_001 lines 160-164, app.js 745-749) -/

/-- Keep a cookie part unless its lower-cased form starts with `domain=` or
equals `secure`. -/
def keepCookiePart (p : List Char) : Bool :=
  !(("domain=".data).isPrefixOf (lowerL p)) && !(lowerL p == "secure".data)

/-- The per-cookie transformation applied to each upstream `Set-Cookie`
value before it is handed to the browser (app.js 747):
`c.split(';').map(p => p.trim()).filter(...).join('; ')`. -/
def rewriteSetCookie (c : String) : String :=
  String.mk
    (joinSep ("; ".data)
      (((splitOnC ';' c.data).map jsTrimL).filter keepCookiePart))

/-! ## A generic scanner for JavaScript global regex replaces

Each replace in the HTML rewrite block (part_001 lines 199-226) is modelled
by a `step` function that, given a suffix of the body, either fails (no
match starting here) or returns the replacement text together with the
match length minus one (so a match always consumes at least one
character).  `runScan` then mirrors `String.prototype.replace` with the
`g` flag: scan left to right, at each position attempt a match, and on
success emit the replacement and resume after the matched text. -/

/-- One scan step: `some (replacement, matchLength - 1)` or `none`. -/
def ScanStep : Type := List Char → Option (List Char × ℕ)

/-- Fuel-indexed scanner; `runScan` supplies sufficient fuel (one unit per
character, matches always consume at least one character). -/
def scanGo (step : ScanStep) : ℕ → List Char → List Char
  | 0, l => l
  | _ + 1, [] => []
  | fuel + 1, c :: cs =>
    match step (c :: cs) with
    | some (r, k) => r ++ scanGo step fuel (cs.drop k)
    | none => c :: scanGo step fuel cs

/-- Global leftmost regex replace over a character list. -/
def runScan (step : ScanStep) (l : List Char) : List Char :=
  scanGo step l.length l

/-- Does `step` match at no position of `l`?  (Used to state the
no-matching-URLs hypotheses of the idempotence claim.) -/
def noMatchesB (step : ScanStep) (l : List Char) : Bool :=
  (List.range (l.length + 1)).all (fun n => (step (l.drop n)).isNone)

/-! ## The relative-attribute rewrite (part_001 line 205)

The regex `(src|href|action)=(['"])(?!https?|:|\/\/|#)\/?([^'"]+)\2` with
flags `gi`, replaced by
`` `${attr}=${quote}${proxyOrigin}${proxyHostPrefix}${target.host}/${url}${quote}` ``. -/

/-- Case-insensitive literal match: `pat` is given lower-case; on success
returns the text after the matched prefix. -/
def matchCI : List Char → List Char → Option (List Char)
  | [], l => some l
  | _ :: _, [] => none
  | p :: ps, c :: cs => if c.toLower = p then matchCI ps cs else none

/-- The negative lookahead `(?!https?|:|\/\/|#)` (case-insensitive): the
text after the opening quote must not start with `http`, `:`, `//` or
`#`. -/
def lookaheadBlocked (l : List Char) : Bool :=
  (matchCI "http".data l).isSome || ("//".data).isPrefixOf l ||
  l.headD ' ' = ':' || l.headD ' ' = '#'

/-- Attempt the attribute pattern for one attribute name at the head of
`l`: the name (case-insensitively), `=`, an opening quote, the lookahead,
an optional `/` (consumed greedily but surrendered when the value would
otherwise be empty, exactly as the backtracking regex behaves), one or
more non-quote characters, and the matching close quote.  The replacement
keeps the original attribute text and quote and substitutes the
reserved-prefix proxy URL for the value. -/
def tryAttr (nameL oL hL l : List Char) : Option (List Char × ℕ) :=
  match matchCI nameL l with
  | none => none
  | some rest =>
    match rest with
    | '=' :: q :: r3 =>
      if isQuote q then
        if lookaheadBlocked r3 then none
        else
          let v := r3.takeWhile (fun c => !(isQuote c))
          match r3.dropWhile (fun c => !(isQuote c)) with
          | c :: _ =>
            if c = q && !v.isEmpty then
              let g3 := match v with
                        | '/' :: x :: xs => x :: xs
                        | _ => v
              some (l.take nameL.length ++ '=' :: q ::
                      (oL ++ proxyHostPrefixS.data ++ hL ++ '/' :: g3) ++ [q],
                    nameL.length + v.length + 2)
            else none
          | [] => none
      else none
    | _ => none

/-- The scan step for the relative-attribute rewrite; the three alternation
branches have pairwise distinct first letters, so their order cannot
matter. -/
def relStep (oL hL : List Char) : ScanStep := fun l =>
  (tryAttr "src".data oL hL l).orElse fun _ =>
    (tryAttr "href".data oL hL l).orElse fun _ =>
      tryAttr "action".data oL hL l

/-! ## The absolute-URL rewrite (part_001 lines 795-802)

`baseDomain` is the last two dot-separated labels of the current target
host; the case-sensitive regex
`(https?:)?//([a-zA-Z0-9.-]*baseDomain)` with flag `g` is replaced by
`` `${proxyOrigin}${proxyHostPrefix}${host}` `` where `host` is group 2. -/

/-- `hostParts.slice(-2).join('.')` (part_001 795-796). -/
def computeBaseDomain (host : String) : String :=
  let ps := splitOnC '.' host.data
  String.mk (joinC '.' (ps.drop (ps.length - 2)))

/-- The regex character class `[a-zA-Z0-9.-]`. -/
def isUrlChar (c : Char) : Bool :=
  ('a' ≤ c && c ≤ 'z') || ('A' ≤ c && c ≤ 'Z') ||
  ('0' ≤ c && c ≤ '9') || c = '.' || c = '-'

/-- Index of the last occurrence of `pat` in `l`, if any — the greedy
`[a-zA-Z0-9.-]*` backtracks from the longest run, so the rightmost
occurrence of the base domain inside the run wins. -/
def findLastOccur (pat l : List Char) : Option ℕ :=
  ((List.range (l.length + 1)).filter
    (fun i => pat.isPrefixOf (l.drop i))).getLast?

/-- The scan step for the absolute-URL rewrite: an optional `https:` or
`http:`, the literal `//`, then the longest host-character run that still
ends in an occurrence of the base domain. -/
def absStep (bdL oL : List Char) : ScanStep := fun l =>
  let attempt : ℕ → Option (List Char × ℕ) := fun p =>
    let run := (l.drop p).takeWhile isUrlChar
    match findLastOccur bdL run with
    | none => none
    | some k =>
      some (oL ++ proxyHostPrefixS.data ++ run.take (k + bdL.length),
            p + k + bdL.length - 1)
  if ("https://".data).isPrefixOf l then attempt 8
  else if ("http://".data).isPrefixOf l then attempt 7
  else if ("//".data).isPrefixOf l then attempt 2
  else none

/-! ## Integrity / crossorigin stripping (part_001 lines 804-805) -/

/-- The scan step for `/integrity="[^"]*"/gi`, replaced by the empty
string. -/
def integrityStep : ScanStep := fun l =>
  match matchCI ("integrity=".data ++ [dqC]) l with
  | none => none
  | some rest =>
    let v := rest.takeWhile (fun c => c ≠ dqC)
    match rest.drop v.length with
    | _ :: _ => some ([], 11 + v.length)
    | [] => none

/-- The scan step for `/\s+crossorigin(="[^"]*")?/gi`, replaced by the
empty string: one or more whitespace characters, `crossorigin`
case-insensitively, and optionally a complete `="..."` group (an
incomplete group is simply not taken, as the regex engine backtracks out
of the optional group). -/
def crossStep : ScanStep := fun l =>
  let ws := l.takeWhile isJsSpace
  if ws.isEmpty then none
  else
    match matchCI "crossorigin".data (l.drop ws.length) with
    | none => none
    | some rest =>
      match rest with
      | '=' :: c2 :: r2 =>
        if c2 = dqC then
          let v := r2.takeWhile (fun c => c ≠ dqC)
          match r2.drop v.length with
          | _ :: _ => some ([], ws.length + 11 + v.length + 2)
          | [] => some ([], ws.length + 11 - 1)
        else some ([], ws.length + 11 - 1)
      | _ => some ([], ws.length + 11 - 1)

/-! ## CSP meta-tag removal (part_001 line 920) -/

/-- The literal prefix of the CSP meta-tag regex, lower-cased. -/
def cspMetaPat : List Char :=
  "<meta http-equiv=".data ++ dqC :: "content-security-policy".data ++ [dqC]

/-- Index of the last occurrence of character `c` in `l`. -/
def lastIdxOf (c : Char) (l : List Char) : Option ℕ :=
  ((List.range l.length).filter (fun i => l.get? i = some c)).getLast?

/-- The scan step for
`/<meta http-equiv="Content-Security-Policy"[^]*>/gi`, replaced by the
empty string: after the literal prefix, the greedy `[^]*` runs to the last
`>` remaining anywhere in the text. -/
def cspStep : ScanStep := fun l =>
  match matchCI cspMetaPat l with
  | none => none
  | some rest =>
    match lastIdxOf '>' rest with
    | none => none
    | some j => some ([], cspMetaPat.length + j)

/-! ## Head injection (part_001 lines 921-925, app.js line 549) -/

/-- The literal `<head>` tag. -/
def headTagS : String := "<head>"

/-- `String.prototype.replace` with a plain string pattern: replace the
leftmost occurrence only. -/
def replaceFirstL (pat repl : List Char) : List Char → List Char
  | [] => []
  | c :: cs =>
    if pat.isPrefixOf (c :: cs) then repl ++ (c :: cs).drop pat.length
    else c :: replaceFirstL pat repl cs

/-- The head-injection step: if the body contains `<head>`, the injected
content is placed directly after its first occurrence; otherwise the
injected content is prepended to the whole body. -/
def injectHeadL (inj body : List Char) : List Char :=
  if containsSubB headTagS.data body then
    replaceFirstL headTagS.data (headTagS.data ++ inj) body
  else inj ++ body

/-- String-level wrapper of `injectHeadL`. -/
def injectHead (inj body : String) : String :=
  String.mk (injectHeadL inj.data body.data)

/-- The relative-attribute rewrite pass on its own (part_001 line 205 /
app.js line 543), as a `String` transformation. -/
def rewriteRelAttrs (origin host body : String) : String :=
  String.mk (runScan (relStep origin.data host.data) body.data)

/-- The complete HTML rewrite block (part_001 lines 199-226): relative
attributes, then absolute URLs of the base domain, then `integrity` and
`crossorigin` stripping, then CSP meta-tag removal, then head injection.
The injected content (the style/script block assembled from the
configuration) is passed in as a string, since the claims treat it as an
opaque unit. -/
def rewriteHtmlBody (origin host injected body : String) : String :=
  let b1 := runScan (relStep origin.data host.data) body.data
  let b2 := runScan (absStep (computeBaseDomain host).data origin.data) b1
  let b3 := runScan integrityStep b2
  let b4 := runScan crossStep b3
  let b5 := runScan cspStep b4
  String.mk (injectHeadL injected.data b5)

/-! # Theorems

General-purpose lemmas about the JavaScript string/object primitives come
first, followed by one theorem (plus witness or counterexample) per claim. -/

theorem isPrefixOf_append_self (l t : List Char) :
    l.isPrefixOf (l ++ t) = true := by
  simp [List.isPrefixOf_iff_prefix]

theorem isPrefixOf_self_eq (l : List Char) : l.isPrefixOf l = true := by
  simp [List.isPrefixOf_iff_prefix]

theorem containsSubB_decomp (pat pre post : List Char) :
    containsSubB pat (pre ++ pat ++ post) = true := by
  unfold containsSubB
  rw [List.any_eq_true]
  refine ⟨pre.length, ?_, ?_⟩
  · simp only [List.mem_range, List.length_append]; omega
  · rw [List.append_assoc, List.drop_left]
    exact isPrefixOf_append_self pat post

theorem splitOnC_ne_nil (sep : Char) (l : List Char) : splitOnC sep l ≠ [] := by
  cases l with
  | nil => simp [splitOnC]
  | cons c cs =>
    simp only [splitOnC]
    cases h : splitOnC sep cs with
    | nil => simp
    | cons p r => by_cases hc : c = sep <;> simp [hc]

theorem splitOnC_sep_cons (sep : Char) (r : List Char) :
    splitOnC sep (sep :: r) = [] :: splitOnC sep r := by
  simp only [splitOnC]
  cases h : splitOnC sep r with
  | nil => exact absurd h (splitOnC_ne_nil sep r)
  | cons p rest => simp

theorem splitOnC_cons_ne (sep c : Char) (hc : c ≠ sep) (r : List Char) :
    splitOnC sep (c :: r) =
      (c :: (splitOnC sep r).headD []) :: (splitOnC sep r).tail := by
  simp only [splitOnC]
  cases h : splitOnC sep r with
  | nil => exact absurd h (splitOnC_ne_nil sep r)
  | cons p rest => simp [hc]

theorem splitOnC_append_sep (sep : Char) (a r : List Char)
    (ha : ∀ c ∈ a, c ≠ sep) :
    splitOnC sep (a ++ sep :: r) = a :: splitOnC sep r := by
  induction a with
  | nil => exact splitOnC_sep_cons sep r
  | cons x a' ih =>
    have hx : x ≠ sep := ha x (by simp)
    have ih' := ih (fun c hc => ha c (by simp [hc]))
    rw [List.cons_append, splitOnC_cons_ne sep x hx, ih']
    simp

theorem splitOnC_no_sep (sep : Char) (l : List Char)
    (h : ∀ c ∈ l, c ≠ sep) : splitOnC sep l = [l] := by
  induction l with
  | nil => simp [splitOnC]
  | cons c cs ih =>
    rw [splitOnC_cons_ne sep c (h c (by simp)),
        ih (fun x hx => h x (by simp [hx]))]
    simp

theorem joinSep_cons_head (s : List Char) (c : Char) (p : List Char)
    (rest : List (List Char)) :
    joinSep s ((c :: p) :: rest) = c :: joinSep s (p :: rest) := by
  cases rest <;> simp [joinSep]

theorem joinC_splitOnC (sep : Char) (l : List Char) :
    joinC sep (splitOnC sep l) = l := by
  induction l with
  | nil => simp [splitOnC, joinC, joinSep]
  | cons c cs ih =>
    by_cases hc : c = sep
    · subst hc
      rw [splitOnC_sep_cons]
      cases h : splitOnC c cs with
      | nil => exact absurd h (splitOnC_ne_nil c cs)
      | cons p rest =>
        rw [h] at ih
        simpa [joinC, joinSep] using ih
    · rw [splitOnC_cons_ne sep c hc]
      cases h : splitOnC sep cs with
      | nil => exact absurd h (splitOnC_ne_nil sep cs)
      | cons p rest =>
        rw [h] at ih
        simp only [List.headD_cons, List.tail_cons]
        unfold joinC at ih ⊢
        rw [joinSep_cons_head, ih]

theorem lookupL_cons {α : Type} (k k' : String) (v : α)
    (rest : List (String × α)) :
    lookupL k ((k', v) :: rest) =
      if k' = k then some v else lookupL k rest := rfl

theorem lookupL_append_of_none {α : Type} (k : String)
    (x y : List (String × α)) (h : lookupL k x = none) :
    lookupL k (x ++ y) = lookupL k y := by
  induction x with
  | nil => rfl
  | cons kv rest ih =>
    obtain ⟨k', v⟩ := kv
    rw [lookupL_cons] at h
    by_cases hk : k' = k
    · rw [if_pos hk] at h
      exact absurd h (by simp)
    · rw [if_neg hk] at h
      rw [List.cons_append, lookupL_cons, if_neg hk]
      exact ih h

theorem lookupL_append_of_some {α : Type} (k : String)
    (x y : List (String × α)) (v : α) (h : lookupL k x = some v) :
    lookupL k (x ++ y) = some v := by
  induction x with
  | nil => simp [lookupL] at h
  | cons kv rest ih =>
    obtain ⟨k', v'⟩ := kv
    by_cases hk : k' = k <;>
      simp only [lookupL, hk, if_true, if_false, List.cons_append] at h ⊢
    · exact h
    · exact ih h

theorem lookupL_spread_mem {α : Type} (k : String) (a b : List (String × α))
    (h : containsKeyL k b = true) :
    lookupL k (spreadL a b) = lookupL k b := by
  unfold spreadL
  have hfilter :
      lookupL k (a.filter (fun kv => !(containsKeyL kv.1 b))) = none := by
    induction a with
    | nil => rfl
    | cons kv rest ih =>
      obtain ⟨k', v⟩ := kv
      by_cases hk : k' = k
      · subst hk
        simp [List.filter_cons, h, ih]
      · by_cases hc : containsKeyL k' b <;>
          simp [List.filter_cons, hc, lookupL, hk, ih]
  exact lookupL_append_of_none k _ b hfilter

theorem lookupL_spread_not_mem {α : Type} (k : String)
    (a b : List (String × α)) (h : containsKeyL k b = false) :
    lookupL k (spreadL a b) = lookupL k a := by
  have hb : lookupL k b = none := by
    unfold containsKeyL at h
    exact Option.not_isSome_iff_eq_none.mp (by simp [h])
  unfold spreadL
  induction a with
  | nil => simpa [lookupL] using hb
  | cons kv rest ih =>
    obtain ⟨k', v⟩ := kv
    by_cases hk : k' = k
    · subst hk
      simp [List.filter_cons, h, lookupL, List.cons_append]
    · by_cases hc : containsKeyL k' b <;>
        simp [List.filter_cons, hc, lookupL, hk, ih]

theorem lookupL_deleteKey {α : Type} (k dk : String)
    (l : List (String × α)) (h : k ≠ dk) :
    lookupL k (deleteKeyL dk l) = lookupL k l := by
  induction l with
  | nil => rfl
  | cons kv rest ih =>
    obtain ⟨k', v⟩ := kv
    by_cases hd : k' = dk
    · have hk : ¬ (k' = k) := fun hkk => h (by rw [← hkk]; exact hd)
      have hkeep : (decide ¬(k' = dk)) = false := by simp [hd]
      rw [deleteKeyL, List.filter_cons]
      simp only [hkeep, Bool.false_eq_true, if_false, lookupL_cons,
        if_neg hk]
      exact ih
    · have hkeep : (decide ¬(k' = dk)) = true := by simp [hd]
      rw [deleteKeyL, List.filter_cons]
      simp only [hkeep, if_true, lookupL_cons]
      by_cases hk : k' = k
      · rw [if_pos hk, if_pos hk]
      · rw [if_neg hk, if_neg hk]
        exact ih

/-- C3: round-trip of the reserved-prefix host encoding — writing a host and
a multi-segment root-relative path in the form
`/--proxy-host--/<host><path>` (exactly the path shape the attribute
rewrite on part_001 line 205 emits) and decoding it with the inbound-path
logic of app.js 146-148 recovers the original (host, path) pair, for any
host that contains a dot and no slash. -/
theorem c3_host_encoding_roundtrip (host path : String)
    (hdot : '.' ∈ host.data) (hns : '/' ∉ host.data)
    (hroot : path.data.headD ' ' = '/')
    (hseg : '/' ∈ path.data.drop 1) :
    decodeProxyPath (proxyHostPrefixS ++ host ++ path) = (host, path) := by
  obtain ⟨r, hr⟩ : ∃ r, path.data = '/' :: r := by
    cases hp : path.data with
    | nil => rw [hp] at hroot; simp at hroot
    | cons c r =>
      rw [hp] at hroot
      simp only [List.headD_cons] at hroot
      exact ⟨r, by rw [hroot]⟩
  have hdata : (proxyHostPrefixS ++ host ++ path).data =
      proxyHostPrefixS.data ++ (host.data ++ ('/' :: r)) := by
    simp [String.data_append, hr]
  unfold decodeProxyPath
  rw [hdata, List.drop_left,
      splitOnC_append_sep '/' host.data r (fun c hc hceq => hns (hceq ▸ hc))]
  simp only [List.headD_cons, List.tail_cons]
  rw [joinC_splitOnC]
  have h1 : String.mk host.data = host := rfl
  have h2 : String.mk ('/' :: r) = path := by rw [← hr]
  rw [h1, h2]

/-- Concrete instance of the C3 round-trip theorem. -/
theorem c3_host_encoding_roundtrip_witness :
    decodeProxyPath (proxyHostPrefixS ++ "cdn.example.com" ++ "/assets/app.js")
      = ("cdn.example.com", "/assets/app.js") :=
  c3_host_encoding_roundtrip "cdn.example.com" "/assets/app.js"
    (by decide) (by decide) (by decide) (by decide)

/-- C4: `getConfig` (app.js 45-56) yields every one of the five
configuration keys for every stored-file state: when the file is absent,
blank or malformed every key carries its documented default, and when the
file holds a JSON object each key is taken from the file when present and
from the defaults otherwise. -/
theorem c4_getConfig_defaults :
    (∀ st : StoredFile,
      (st = StoredFile.absent ∨ st = StoredFile.blank ∨
        st = StoredFile.malformed) →
      ∀ k ∈ cfgKeys, lookupL k (getConfig st) = some (defaultValFor k))
    ∧ ∀ o : JObj, ∀ k ∈ cfgKeys,
        lookupL k (getConfig (StoredFile.jsonObject o)) =
          some ((lookupL k o).getD (defaultValFor k)) := by
  constructor
  · rintro st (rfl | rfl | rfl) k hk <;> fin_cases hk <;> rfl
  · intro o k hk
    show lookupL k (spreadL defaultConfigJ o) = _
    cases hlo : lookupL k o with
    | some v =>
      have hc : containsKeyL k o = true := by simp [containsKeyL, hlo]
      rw [lookupL_spread_mem _ _ _ hc, hlo]
      rfl
    | none =>
      have hc : containsKeyL k o = false := by simp [containsKeyL, hlo]
      rw [lookupL_spread_not_mem _ _ _ hc]
      fin_cases hk <;> rfl

/-- Concrete instance of the C4 theorem: a missing file gives the default
target URL, a partial object keeps its own scaleFactor. -/
theorem c4_getConfig_defaults_witness :
    lookupL "targetUrl" (getConfig StoredFile.absent) =
        some (defaultValFor "targetUrl")
      ∧ lookupL "scaleFactor"
          (getConfig (StoredFile.jsonObject [("scaleFactor", JVal.n 2)])) =
        some ((lookupL "scaleFactor" [("scaleFactor", JVal.n 2)]).getD
          (defaultValFor "scaleFactor")) :=
  ⟨c4_getConfig_defaults.1 StoredFile.absent (Or.inl rfl) "targetUrl"
      (by decide),
   c4_getConfig_defaults.2 [("scaleFactor", JVal.n 2)] "scaleFactor"
      (by decide)⟩

/-- C5: the self-loop guard (app.js 126-131) — whenever the configured
target URL equals, or contains as a substring, the proxy's own inbound
host, the handler returns the 500 Configuration Error page before the
target URL is even parsed, hence before any outbound fetch can be
attempted. -/
theorem c5_selfloop_guard (targetUrl proxyHost : String)
    (h : targetUrl = proxyHost ∨ jsIncludes targetUrl proxyHost = true) :
    proxyPreFetch targetUrl proxyHost = PreFetchResult.selfLoopError := by
  have hin : jsIncludes targetUrl proxyHost = true := by
    rcases h with rfl | h
    · unfold jsIncludes containsSubB
      rw [List.any_eq_true]
      exact ⟨0, by simp, by simp [isPrefixOf_self_eq]⟩
    · exact h
  unfold proxyPreFetch
  rw [hin]
  rfl

/-- Concrete instance of the C5 theorem. -/
theorem c5_selfloop_guard_witness :
    proxyPreFetch "http://myproxy:1337/page" "myproxy:1337" =
      PreFetchResult.selfLoopError :=
  c5_selfloop_guard "http://myproxy:1337/page" "myproxy:1337"
    (Or.inr (by decide))

/-- C9: the `/report-height` handler (app.js 67-76) answers 400 to
`height = 0` (zero is a number but not truthy) and leaves the stored
height unchanged, while every strictly positive numeric height is answered
200 with the rounded value stored. -/
theorem c9_report_height :
    (∀ last : HeightState,
      reportHeightHandler [("height", JVal.n 0)] last = (400, last))
    ∧ ∀ q : ℚ, 0 < q → ∀ last : HeightState,
        reportHeightHandler [("height", JVal.n q)] last =
          (200, HeightState.px (jsRound q)) := by
  constructor
  · intro last; rfl
  · intro q hq last
    unfold reportHeightHandler lookupL
    simp [hq.ne']

/-- Concrete instance of the C9 theorem at height 3/2. -/
theorem c9_report_height_witness :
    (0 : ℚ) < 3/2 ∧
      reportHeightHandler [("height", JVal.n (3/2))] HeightState.na =
        (200, HeightState.px (jsRound (3/2))) :=
  ⟨by norm_num, c9_report_height.2 (3/2) (by norm_num) HeightState.na⟩

theorem string_append_empty (s : String) : s ++ "" = s := by
  apply String.ext
  simp [String.data_append]

theorem isPrefixOf_cons_ne (a b : Char) (as bs : List Char) (h : a ≠ b) :
    (a :: as).isPrefixOf (b :: bs) = false := by
  rw [show ((a :: as).isPrefixOf (b :: bs)) = (a == b && as.isPrefixOf bs)
    from rfl]
  simp [h]

theorem takeWhile_eq_self_of_all {p : Char → Bool} (l : List Char)
    (h : ∀ c ∈ l, p c = true) : l.takeWhile p = l := by
  induction l with
  | nil => rfl
  | cons c cs ih =>
    rw [List.takeWhile_cons, if_pos (h c (by simp))]
    rw [ih (fun x hx => h x (by simp [hx]))]

theorem dropWhile_eq_nil_of_all {p : Char → Bool} (l : List Char)
    (h : ∀ c ∈ l, p c = true) : l.dropWhile p = [] := by
  induction l with
  | nil => rfl
  | cons c cs ih =>
    rw [List.dropWhile_cons, if_pos (h c (by simp))]
    exact ih (fun x hx => h x (by simp [hx]))

/-- C1 (amended): the proxy keeps no cookie jar — the outbound `cookie`
header of the axios request (part_001 137-151) is exactly whatever
`cookie` header the inbound browser request physically presented, for
every inbound header object; in particular a later request that presents
no `session` cookie produces an outbound request with no `Cookie` header
at all, regardless of any earlier `Set-Cookie` response. -/
theorem c1_no_cookie_jar_passthrough (inbound : List (String × String))
    (targetHost targetOrigin referer : String) :
    lookupL "cookie"
        (buildOutboundHeaders inbound targetHost targetOrigin referer) =
      lookupL "cookie" inbound := by
  unfold buildOutboundHeaders
  have hc : containsKeyL "cookie"
      [("host", targetHost), ("origin", targetOrigin),
       ("user-agent", uaString),
       ("accept-encoding", "gzip, deflate, br"),
       ("referer", referer)] = false := rfl
  rw [lookupL_spread_not_mem _ _ _ hc]
  exact lookupL_deleteKey _ _ _ (by decide)

/-- C1 counterexample: an upstream `Set-Cookie: session=abc123` is merely
forwarded to the browser by the set-cookie rewrite (part_001 160-164) —
nothing is persisted — and a later request presenting no cookie yields an
outbound header object with no `cookie` entry, contradicting the claimed
`Cookie: session=abc123`. -/
theorem c1_counterexample :
    rewriteSetCookie "session=abc123" = "session=abc123"
      ∧ lookupL "cookie"
          (buildOutboundHeaders [("accept", "text/html")]
            "example.com" "https://example.com" "https://example.com/") =
        none := by
  exact ⟨by decide, by decide⟩

/-! ### C8: Set-Cookie forwarding -/

theorem jsTrimL_cons_space (l : List Char) :
    jsTrimL (' ' :: l) = jsTrimL l := by
  unfold jsTrimL
  rw [List.dropWhile_cons, if_pos (by decide)]

theorem split_join_map_trim (parts : List (List Char))
    (hne : parts ≠ [])
    (hparts : ∀ p ∈ parts, (∀ c ∈ p, c ≠ ';') ∧ jsTrimL p = p) :
    (splitOnC ';' (joinSep ("; ".data) parts)).map jsTrimL = parts := by
  induction parts with
  | nil => exact absurd rfl hne
  | cons x rest ih =>
    obtain ⟨hxsep, hxtrim⟩ := hparts x (by simp)
    cases rest with
    | nil =>
      show (splitOnC ';' (joinSep ("; ".data) [x])).map jsTrimL = [x]
      rw [show joinSep ("; ".data) [x] = x from rfl,
          splitOnC_no_sep ';' x hxsep]
      simp [hxtrim]
    | cons y rest' =>
      have hJ : joinSep ("; ".data) (x :: y :: rest') =
          x ++ ';' :: (' ' :: joinSep ("; ".data) (y :: rest')) := by
        show x ++ "; ".data ++ joinSep ("; ".data) (y :: rest') = _
        simp
      rw [hJ, splitOnC_append_sep ';' x _ hxsep]
      have ihy := ih (by simp) (fun p hp => hparts p (by simp [hp]))
      cases hsplit : splitOnC ';' (joinSep ("; ".data) (y :: rest')) with
      | nil =>
        exact absurd hsplit (splitOnC_ne_nil ';' _)
      | cons p r =>
        rw [hsplit] at ihy
        rw [splitOnC_cons_ne ';' ' ' (by decide) _, hsplit]
        simp only [List.headD_cons, List.tail_cons, List.map_cons] at ihy ⊢
        rw [hxtrim, jsTrimL_cons_space]
        exact congrArg (x :: ·) ihy

/-- C8 (amended): each upstream Set-Cookie value is forwarded after being
split on `;`, trimmed, stripped of any `Domain=...` attribute and any
`Secure` flag (case-insensitively), and re-joined with `; `
(part_001 160-164); consequently a Set-Cookie whose parts carry no Domain
attribute and no Secure flag (and are already in the trimmed, `; `-joined
form) is forwarded byte-identically. -/
theorem c8_setcookie_forwarding (parts : List (List Char))
    (hne : parts ≠ [])
    (hparts : ∀ p ∈ parts,
      (∀ c ∈ p, c ≠ ';') ∧ jsTrimL p = p ∧ keepCookiePart p = true) :
    rewriteSetCookie (String.mk (joinSep ("; ".data) parts)) =
      String.mk (joinSep ("; ".data) parts) := by
  unfold rewriteSetCookie
  have hdata : (String.mk (joinSep ("; ".data) parts)).data =
      joinSep ("; ".data) parts := rfl
  rw [hdata,
      split_join_map_trim parts hne
        (fun p hp => ⟨(hparts p hp).1, (hparts p hp).2.1⟩),
      List.filter_eq_self.mpr (fun p hp => (hparts p hp).2.2)]

/-- Concrete instance of the (amended) C8 theorem: a Domain/Secure-free
cookie passes through unmodified. -/
theorem c8_setcookie_forwarding_witness :
    rewriteSetCookie
        (String.mk (joinSep ("; ".data)
          ["session=abc123".data, "Path=/".data])) =
      String.mk (joinSep ("; ".data)
        ["session=abc123".data, "Path=/".data]) :=
  c8_setcookie_forwarding ["session=abc123".data, "Path=/".data]
    (by decide) (by decide)

/-- C8 counterexample: a Set-Cookie carrying Domain and Secure attributes
is not forwarded as-is — the rewrite deletes both attributes. -/
theorem c8_counterexample :
    rewriteSetCookie "session=abc123; Domain=example.com; Secure; Path=/" =
        "session=abc123; Path=/"
      ∧ rewriteSetCookie
          "session=abc123; Domain=example.com; Secure; Path=/" ≠
        "session=abc123; Domain=example.com; Secure; Path=/" := by
  exact ⟨by decide, by decide⟩

/-! ### C2: redirect translation -/

/-- C2 (amended): for every redirect status in {301, 302, 307, 308} and
every root-relative Location (no query, no fragment), the client response
carries the same status and a Location equal to the resolved
`pathname + search` — the bare upstream path, with no reserved-prefix host
encoding added (app.js 165-168). -/
theorem c2_redirect_path_translation (status : ℕ) (loc : String)
    (target : URLModel)
    (hs : status ∈ [301, 302, 307, 308])
    (h1 : loc.data.headD ' ' = '/')
    (h2 : (loc.data.drop 1).headD ' ' ≠ '/')
    (h3 : '#' ∉ loc.data) (h4 : '?' ∉ loc.data) :
    redirectBranch status (some loc) target =
      RedirectOutcome.redirect status loc := by
  obtain ⟨r, hr⟩ : ∃ r, loc.data = '/' :: r := by
    cases hl : loc.data with
    | nil => rw [hl] at h1; simp at h1
    | cons c r =>
      rw [hl] at h1
      simp only [List.headD_cons] at h1
      exact ⟨r, by rw [h1]⟩
  have hr2 : r.headD ' ' ≠ '/' := by
    rw [hr] at h2
    simpa using h2
  unfold redirectBranch
  rw [if_pos hs]
  have hres : resolveLocation loc target.protocol target.host =
      ⟨target.protocol, target.host, loc, ""⟩ := by
    unfold resolveLocation
    have e1 : ("https://".data).isPrefixOf loc.data = false := by
      rw [hr, show ("https://".data) = 'h' :: "ttps://".data from rfl]
      exact isPrefixOf_cons_ne _ _ _ _ (by decide)
    have e2 : ("http://".data).isPrefixOf loc.data = false := by
      rw [hr, show ("http://".data) = 'h' :: "ttp://".data from rfl]
      exact isPrefixOf_cons_ne _ _ _ _ (by decide)
    have e3 : ("//".data).isPrefixOf loc.data = false := by
      rw [hr, show ("//".data) = '/' :: ['/'] from rfl]
      cases hrr : r with
      | nil => rfl
      | cons c r' =>
        rw [show (('/' :: ['/']).isPrefixOf ('/' :: c :: r')) =
          (('/' : Char) == '/' &&
            (['/'] : List Char).isPrefixOf (c :: r')) from rfl]
        have hcne : c ≠ '/' := by
          rw [hrr] at hr2
          simpa using hr2
        rw [isPrefixOf_cons_ne '/' c [] r' (Ne.symm hcne)]
        simp
    have e4 : ("/".data).isPrefixOf loc.data = true := by
      rw [hr]
      show (('/' : Char) == '/' && ([] : List Char).isPrefixOf r) = true
      simp [List.isPrefixOf]
    simp only [e1, e2, e3, e4, Bool.false_eq_true, if_false, if_true]
    have ht : loc.data.takeWhile (fun c => decide (c ≠ '#')) = loc.data :=
      takeWhile_eq_self_of_all _
        (fun c hc => decide_eq_true (fun h => h3 (h ▸ hc)))
    have ht2 : loc.data.takeWhile (fun c => decide (c ≠ '?')) = loc.data :=
      takeWhile_eq_self_of_all _
        (fun c hc => decide_eq_true (fun h => h4 (h ▸ hc)))
    have ht3 : loc.data.dropWhile (fun c => decide (c ≠ '?')) = [] :=
      dropWhile_eq_nil_of_all _
        (fun c hc => decide_eq_true (fun h => h4 (h ▸ hc)))
    rw [ht, ht2, ht3]
  show RedirectOutcome.redirect status
      ((resolveLocation loc target.protocol target.host).pathname ++
        (resolveLocation loc target.protocol target.host).search) = _
  rw [hres]
  show RedirectOutcome.redirect status (loc ++ "") = _
  rw [string_append_empty]

/-- Concrete instance of the (amended) C2 theorem. -/
theorem c2_redirect_path_translation_witness :
    redirectBranch 302 (some "/dashboard")
        ⟨"https:", "example.com", "/", ""⟩ =
      RedirectOutcome.redirect 302 "/dashboard" :=
  c2_redirect_path_translation 302 "/dashboard"
    ⟨"https:", "example.com", "/", ""⟩ (by decide) (by decide) (by decide)
    (by decide) (by decide)

/-- C2 counterexample: upstream 302 with `Location: /dashboard` against
target host `example.com` gives the client the raw path `/dashboard`, not
the reserved-prefix proxy URL for `example.com/dashboard` (in neither
path-only nor absolute form). -/
theorem c2_counterexample :
    redirectBranch 302 (some "/dashboard")
        ⟨"https:", "example.com", "/", ""⟩ =
      RedirectOutcome.redirect 302 "/dashboard"
    ∧ ("/dashboard" : String) ≠ proxyHostPrefixS ++ "example.com/dashboard"
    ∧ ("/dashboard" : String) ≠
        "http://localhost:1337" ++ proxyHostPrefixS ++
          "example.com/dashboard" := by
  exact ⟨by decide, by decide, by decide⟩

/-! ### C10: head injection -/

theorem containsSubB_of_cons {pat : List Char} {c : Char} {cs : List Char}
    (h : containsSubB pat (c :: cs) = true)
    (hp : pat.isPrefixOf (c :: cs) = false) :
    containsSubB pat cs = true := by
  unfold containsSubB at h ⊢
  rw [List.any_eq_true] at h ⊢
  obtain ⟨n, hn, hpre⟩ := h
  cases n with
  | zero =>
    rw [List.drop_zero] at hpre
    rw [hp] at hpre
    exact absurd hpre (by simp)
  | succ m =>
    refine ⟨m, ?_, ?_⟩
    · simp only [List.mem_range, List.length_cons] at hn ⊢
      omega
    · rw [List.drop_succ_cons] at hpre
      exact hpre

theorem replaceFirstL_at (pat repl pre post : List Char) (hpat : pat ≠ [])
    (hfirst : ∀ j < pre.length,
      pat.isPrefixOf ((pre ++ pat ++ post).drop j) = false) :
    replaceFirstL pat repl (pre ++ pat ++ post) = pre ++ repl ++ post := by
  induction pre with
  | nil =>
    simp only [List.nil_append]
    cases hp : pat with
    | nil => exact absurd hp hpat
    | cons p ps =>
      subst hp
      have hpre : ((p :: ps).isPrefixOf (p :: (ps ++ post))) = true := by
        rw [← List.cons_append]
        exact isPrefixOf_append_self _ _
      rw [List.cons_append]
      simp only [replaceFirstL, hpre, if_true]
      congr 1
      rw [← List.cons_append, List.drop_left]
  | cons x pre' ih =>
    have h0 := hfirst 0 (by simp)
    rw [List.drop_zero] at h0
    simp only [List.cons_append] at h0 ⊢
    simp only [replaceFirstL, h0, Bool.false_eq_true, if_false]
    refine congrArg (x :: ·) (ih (fun j hj => ?_))
    have hj1 := hfirst (j + 1) (by simp only [List.length_cons]; omega)
    simp only [List.cons_append, List.drop_succ_cons] at hj1
    exact hj1

theorem replaceFirstL_infix (pat repl l : List Char) (hpat : pat ≠ [])
    (h : containsSubB pat l = true) :
    ∃ A B, replaceFirstL pat repl l = A ++ repl ++ B := by
  induction l with
  | nil =>
    exfalso
    unfold containsSubB at h
    rw [List.any_eq_true] at h
    obtain ⟨n, _, hpre⟩ := h
    cases hp : pat with
    | nil => exact hpat hp
    | cons p ps =>
      rw [hp] at hpre
      simp at hpre
  | cons c cs ih =>
    cases hp : pat.isPrefixOf (c :: cs) with
    | true =>
      refine ⟨[], (c :: cs).drop pat.length, ?_⟩
      simp only [replaceFirstL, hp, if_true, List.nil_append]
    | false =>
      obtain ⟨A, B, hAB⟩ := ih (containsSubB_of_cons h hp)
      refine ⟨c :: A, B, ?_⟩
      simp only [replaceFirstL, hp, Bool.false_eq_true, if_false, hAB,
        List.cons_append]

/-- C10: head-injection placement (part_001 921-925, app.js 549) — when
the rewritten body contains `<head>` the injected content lands directly
after its first occurrence; when it does not, the injected content is
prepended to the whole body; and in every case the injected content is a
substring of the output. -/
theorem c10_head_injection (inj body : String) :
    (containsSubB headTagS.data body.data = false →
      injectHead inj body = inj ++ body)
    ∧ (∀ pre post : String,
        body = pre ++ headTagS ++ post →
        (∀ j < pre.data.length,
          (headTagS.data).isPrefixOf (body.data.drop j) = false) →
        injectHead inj body = pre ++ headTagS ++ inj ++ post)
    ∧ inj.data <:+: (injectHead inj body).data := by
  refine ⟨?_, ?_, ?_⟩
  · intro h
    unfold injectHead injectHeadL
    rw [h]
    simp only [Bool.false_eq_true, if_false]
    apply String.ext
    simp [String.data_append]
  · intro pre post hbody hfirst
    have hdata : body.data = pre.data ++ headTagS.data ++ post.data := by
      rw [hbody]; simp [String.data_append]
    have hcontains : containsSubB headTagS.data body.data = true := by
      rw [hdata]; exact containsSubB_decomp _ _ _
    unfold injectHead injectHeadL
    rw [hcontains]
    simp only [if_true]
    rw [hdata, replaceFirstL_at _ _ _ _ (by decide)
      (fun j hj => by rw [← hdata]; exact hfirst j hj)]
    apply String.ext
    simp [String.data_append]
  · cases hc : containsSubB headTagS.data body.data with
    | false =>
      unfold injectHead injectHeadL
      rw [hc]
      simp only [Bool.false_eq_true, if_false]
      exact ⟨[], body.data, rfl⟩
    | true =>
      obtain ⟨A, B, hAB⟩ :=
        replaceFirstL_infix headTagS.data (headTagS.data ++ inj.data)
          body.data (by decide) hc
      unfold injectHead injectHeadL
      rw [hc]
      simp only [if_true]
      rw [hAB]
      exact ⟨A ++ headTagS.data, B, by simp⟩

/-- Concrete instance of the C10 theorem: the injection lands after the
first `<head>` only. -/
theorem c10_head_injection_witness :
    injectHead "XX" ("<p>" ++ headTagS ++ "<head>q") =
      "<p>" ++ headTagS ++ "XX" ++ "<head>q" :=
  (c10_head_injection "XX" ("<p>" ++ headTagS ++ "<head>q")).2.1
    "<p>" "<head>q" rfl (by decide)

/-! ### C7: rewrite idempotence on non-matching input -/

theorem scanGo_congr (step : ScanStep) :
    ∀ (f₁ f₂ : ℕ) (l : List Char), l.length ≤ f₁ → l.length ≤ f₂ →
      scanGo step f₁ l = scanGo step f₂ l := by
  intro f₁
  induction f₁ with
  | zero =>
    intro f₂ l h1 h2
    have hl : l = [] := List.eq_nil_of_length_eq_zero (Nat.le_zero.mp h1)
    subst hl
    cases f₂ <;> rfl
  | succ f ih =>
    intro f₂ l h1 h2
    cases l with
    | nil => cases f₂ <;> rfl
    | cons c cs =>
      cases f₂ with
      | zero => simp at h2
      | succ f' =>
        simp only [scanGo]
        cases hstep : step (c :: cs) with
        | none =>
          have hc : cs.length ≤ f := by simp at h1; omega
          have hc' : cs.length ≤ f' := by simp at h2; omega
          rw [ih f' cs hc hc']
        | some rk =>
          obtain ⟨r, k⟩ := rk
          have hd : (cs.drop k).length ≤ f := by
            rw [List.length_drop]
            simp at h1
            omega
          have hd' : (cs.drop k).length ≤ f' := by
            rw [List.length_drop]
            simp at h2
            omega
          change r ++ scanGo step f (cs.drop k) =
            r ++ scanGo step f' (cs.drop k)
          rw [ih f' _ hd hd']

theorem runScan_cons_none (step : ScanStep) (c : Char) (cs : List Char)
    (h : step (c :: cs) = none) :
    runScan step (c :: cs) = c :: runScan step cs := by
  show scanGo step (cs.length + 1) (c :: cs) = _
  simp only [scanGo, h]
  rfl

theorem runScan_cons_some (step : ScanStep) (c : Char) (cs r : List Char)
    (k : ℕ) (h : step (c :: cs) = some (r, k)) :
    runScan step (c :: cs) = r ++ runScan step (cs.drop k) := by
  show scanGo step (cs.length + 1) (c :: cs) = _
  simp only [scanGo, h]
  refine congrArg (r ++ ·) ?_
  exact scanGo_congr step cs.length (cs.drop k).length (cs.drop k)
    (by rw [List.length_drop]; omega) (le_refl _)

theorem runScan_id_of_noMatches (step : ScanStep) (l : List Char)
    (h : ∀ n, step (l.drop n) = none) : runScan step l = l := by
  induction l with
  | nil => rfl
  | cons c cs ih =>
    rw [runScan_cons_none step c cs (by simpa using h 0)]
    exact congrArg (c :: ·)
      (ih (fun n => by simpa [List.drop_succ_cons] using h (n + 1)))

theorem noMatchesB_imp (step : ScanStep) (l : List Char)
    (h : noMatchesB step l = true) : ∀ n, step (l.drop n) = none := by
  intro n
  unfold noMatchesB at h
  rw [List.all_eq_true] at h
  by_cases hn : n ≤ l.length
  · have := h n (by simp only [List.mem_range]; omega)
    simpa [Option.isNone_iff_eq_none] using this
  · have hd : l.drop n = [] := List.drop_eq_nil_of_le (by omega)
    have h0 := h l.length (by simp [List.mem_range])
    have hd0 : l.drop l.length = [] := List.drop_eq_nil_of_le (le_refl _)
    rw [hd, ← hd0]
    simpa [Option.isNone_iff_eq_none] using h0

/-- C7 (amended): an HTML body on which none of the five body rewrites
matches anywhere — no relative src/href/action attribute, no absolute URL
of the base domain, and additionally no `integrity` attribute, no
whitespace-preceded `crossorigin` attribute and no CSP meta tag — comes
out of the rewrite block byte-identical except for the injected head
content. -/
theorem c7_rewrite_identity (origin host injected body : String)
    (hrel : noMatchesB (relStep origin.data host.data) body.data = true)
    (habs : noMatchesB
      (absStep (computeBaseDomain host).data origin.data) body.data = true)
    (hint : noMatchesB integrityStep body.data = true)
    (hcross : noMatchesB crossStep body.data = true)
    (hcsp : noMatchesB cspStep body.data = true) :
    rewriteHtmlBody origin host injected body = injectHead injected body := by
  show String.mk (injectHeadL injected.data
      (runScan cspStep (runScan crossStep (runScan integrityStep
        (runScan (absStep (computeBaseDomain host).data origin.data)
          (runScan (relStep origin.data host.data) body.data)))))) = _
  rw [runScan_id_of_noMatches _ _ (noMatchesB_imp _ _ hrel),
      runScan_id_of_noMatches _ _ (noMatchesB_imp _ _ habs),
      runScan_id_of_noMatches _ _ (noMatchesB_imp _ _ hint),
      runScan_id_of_noMatches _ _ (noMatchesB_imp _ _ hcross),
      runScan_id_of_noMatches _ _ (noMatchesB_imp _ _ hcsp)]
  rfl

/-- Concrete instance of the (amended) C7 theorem. -/
theorem c7_rewrite_identity_witness :
    rewriteHtmlBody "http://localhost:1337" "www.example.com" "INJ"
        "<html><head></head><p>hi</p></html>" =
      injectHead "INJ" "<html><head></head><p>hi</p></html>" :=
  c7_rewrite_identity "http://localhost:1337" "www.example.com" "INJ"
    "<html><head></head><p>hi</p></html>"
    (by decide) (by decide) (by decide) (by decide) (by decide)

/-- C7 counterexample: a body with zero matches of the absolute-URL and
relative-attribute patterns but containing `integrity="x"` is altered
beyond the injected head content — the integrity attribute is stripped. -/
theorem c7_counterexample :
    noMatchesB (relStep "http://localhost:1337".data "www.example.com".data)
        ("<p integrity=" ++ dqS ++ "x" ++ dqS ++ ">hi</p>").data = true
    ∧ noMatchesB (absStep (computeBaseDomain "www.example.com").data
          "http://localhost:1337".data)
        ("<p integrity=" ++ dqS ++ "x" ++ dqS ++ ">hi</p>").data = true
    ∧ rewriteHtmlBody "http://localhost:1337" "www.example.com" "INJ"
          ("<p integrity=" ++ dqS ++ "x" ++ dqS ++ ">hi</p>") ≠
        injectHead "INJ" ("<p integrity=" ++ dqS ++ "x" ++ dqS ++ ">hi</p>") := by
  exact ⟨by decide, by decide, by decide⟩

/-! ### C6: relative attribute rewriting -/

theorem matchCI_eq_drop (p : List Char) :
    ∀ l r, matchCI p l = some r → r = l.drop p.length := by
  induction p with
  | nil =>
    intro l r h
    rw [show matchCI [] l = some l from rfl] at h
    simpa using h.symm
  | cons pc ps ih =>
    intro l r h
    cases l with
    | nil => exact absurd h (by rw [show matchCI (pc :: ps) [] = none from rfl]; simp)
    | cons c cs =>
      rw [show matchCI (pc :: ps) (c :: cs) =
        (if c.toLower = pc then matchCI ps cs else none) from rfl] at h
      by_cases hc : c.toLower = pc
      · rw [if_pos hc] at h
        simpa [List.drop_succ_cons] using ih cs r h
      · rw [if_neg hc] at h
        exact absurd h (by simp)

theorem tryAttr_some_quote (nameL oL hL l : List Char) (x : List Char × ℕ)
    (h : tryAttr nameL oL hL l = some x) :
    ∃ c, l[nameL.length + 1]? = some c ∧ isQuote c = true := by
  unfold tryAttr at h
  split at h
  · exact absurd h (by simp)
  · rename_i rest hm
    split at h
    · rename_i q r3
      have hdrop := matchCI_eq_drop nameL l _ hm
      by_cases hq : isQuote q = true
      · have h1 : (l.drop nameL.length)[1]? = some q := by
          rw [← hdrop]
          simp
        rw [List.getElem?_drop] at h1
        exact ⟨q, h1, hq⟩
      · rw [if_neg hq] at h
        exact absurd h (by simp)
    · exact absurd h (by simp)

theorem relStep_none_of_no_quote (oL hL l : List Char)
    (h : ∀ i ≤ 7, ∀ c, l[i]? = some c → isQuote c = false) :
    relStep oL hL l = none := by
  have hgen : ∀ nameL : List Char, nameL.length ≤ 6 →
      tryAttr nameL oL hL l = none := by
    intro nameL hlen
    cases ht : tryAttr nameL oL hL l with
    | none => rfl
    | some x =>
      obtain ⟨c, hc, hq⟩ := tryAttr_some_quote _ _ _ _ _ ht
      have := h (nameL.length + 1) (by omega) c hc
      rw [this] at hq
      exact absurd hq (by simp)
  unfold relStep
  rw [hgen "src".data (by decide), hgen "href".data (by decide),
      hgen "action".data (by decide)]
  rfl

theorem tryAttr_none_of_head (p : Char) (ps : List Char)
    (oL hL : List Char) (c : Char) (cs : List Char)
    (h : ¬ (c.toLower = p)) : tryAttr (p :: ps) oL hL (c :: cs) = none := by
  unfold tryAttr
  rw [show matchCI (p :: ps) (c :: cs) =
    (if c.toLower = p then matchCI ps cs else none) from rfl, if_neg h]

theorem relStep_none_of_head (oL hL : List Char) (c : Char) (cs : List Char)
    (h1 : ¬ (c.toLower = 's')) (h2 : ¬ (c.toLower = 'h'))
    (h3 : ¬ (c.toLower = 'a')) :
    relStep oL hL (c :: cs) = none := by
  unfold relStep
  rw [show ("src".data) = 's' :: "rc".data from rfl,
      show ("href".data) = 'h' :: "ref".data from rfl,
      show ("action".data) = 'a' :: "ction".data from rfl,
      tryAttr_none_of_head 's' _ oL hL c cs h1,
      tryAttr_none_of_head 'h' _ oL hL c cs h2,
      tryAttr_none_of_head 'a' _ oL hL c cs h3]
  rfl

theorem runScan_append_of_none (step : ScanStep) (pre rest : List Char)
    (h : ∀ j < pre.length, step ((pre ++ rest).drop j) = none) :
    runScan step (pre ++ rest) = pre ++ runScan step rest := by
  induction pre with
  | nil => rfl
  | cons x pre' ih =>
    have h0 := h 0 (by simp)
    rw [List.drop_zero, List.cons_append] at h0
    rw [List.cons_append, runScan_cons_none step x _ h0]
    refine congrArg (x :: ·) (ih (fun j hj => ?_))
    have hj1 := h (j + 1) (by simp only [List.length_cons]; omega)
    rw [List.cons_append, List.drop_succ_cons] at hj1
    exact hj1

theorem relStep_at_src (oL hL postL : List Char) :
    relStep oL hL
        ('s' :: ("rc=".data ++ (dqC :: ("/logo.png".data ++ dqC :: '>' :: postL)))) =
      some ("src".data ++ '=' :: dqC ::
          (oL ++ proxyHostPrefixS.data ++ hL ++ '/' :: "logo.png".data) ++ [dqC],
        14) := rfl

theorem relStep_none_before_img (oL hL preL postL : List Char)
    (hq : ∀ c ∈ preL, isQuote c = false) :
    ∀ j < preL.length + 5,
      relStep oL hL
        ((preL ++ "<img src=".data ++
          (dqC :: ("/logo.png".data ++ dqC :: '>' :: postL))).drop j) = none := by
  intro j hj
  by_cases hcase : j ≤ preL.length + 1
  · apply relStep_none_of_no_quote
    intro i hi c hc
    rw [List.getElem?_drop] at hc
    have hp : j + i < (preL ++ "<img src=".data).length := by
      have hlen2 : (preL ++ "<img src=".data).length = preL.length + 9 := by
        rw [List.length_append]
        rfl
      rw [hlen2]
      omega
    rw [List.getElem?_append_left hp] at hc
    rcases List.mem_append.mp (List.getElem?_mem hc) with hpre | himg
    · exact hq c hpre
    · have hall : ∀ x ∈ ("<img src=".data), isQuote x = false := by decide
      exact hall c himg
  · have hsplit : ∀ (X : List Char) (jj : ℕ),
        (preL ++ X).drop (preL.length + jj) = X.drop jj := by
      intro X jj
      rw [← List.drop_drop, List.drop_left]
    obtain ⟨ii, rfl⟩ : ∃ ii, j = preL.length + ii :=
      ⟨j - preL.length, by omega⟩
    rw [List.append_assoc, hsplit]
    have hii : ii = 2 ∨ ii = 3 ∨ ii = 4 := by omega
    rcases hii with h2 | h3 | h4
    · rw [h2]
      exact relStep_none_of_head oL hL 'm' _
        (by decide) (by decide) (by decide)
    · rw [h3]
      exact relStep_none_of_head oL hL 'g' _
        (by decide) (by decide) (by decide)
    · rw [h4]
      exact relStep_none_of_head oL hL ' ' _
        (by decide) (by decide) (by decide)

theorem runScan_rel_img (oL hL preL postL : List Char)
    (hq : ∀ c ∈ preL, isQuote c = false) :
    runScan (relStep oL hL)
        ((preL ++ "<img ".data) ++
          ('s' :: ("rc=".data ++
            (dqC :: ("/logo.png".data ++ dqC :: '>' :: postL))))) =
      (preL ++ "<img ".data) ++
        (("src".data ++ '=' :: dqC ::
            (oL ++ proxyHostPrefixS.data ++ hL ++ '/' :: "logo.png".data) ++
            [dqC]) ++
          ('>' :: runScan (relStep oL hL) postL)) := by
  rw [runScan_append_of_none]
  · refine congrArg ((preL ++ "<img ".data) ++ ·) ?_
    rw [runScan_cons_some (relStep oL hL) 's' _ _ 14 (relStep_at_src oL hL postL)]
    have hdrop14 : ("rc=".data ++
        (dqC :: ("/logo.png".data ++ dqC :: '>' :: postL))).drop 14 =
        '>' :: postL := rfl
    rw [hdrop14,
        runScan_cons_none _ _ _
          (relStep_none_of_head oL hL '>' postL
            (by decide) (by decide) (by decide))]
  · intro j hj
    have hlen : (preL ++ "<img ".data).length = preL.length + 5 := by
      simp only [List.length_append]
      rw [show ("<img ".data).length = 5 from rfl]
    rw [hlen] at hj
    have hshape : (preL ++ "<img ".data) ++
        ('s' :: ("rc=".data ++
          (dqC :: ("/logo.png".data ++ dqC :: '>' :: postL)))) =
        preL ++ "<img src=".data ++
          (dqC :: ("/logo.png".data ++ dqC :: '>' :: postL)) := by
      simp only [List.append_assoc]
      refine congrArg (preL ++ ·) ?_
      rfl
    rw [hshape]
    exact relStep_none_before_img oL hL preL postL hq j hj

/-- C6 (amended): whenever the text before the attribute contains no quote
character (so no earlier attribute value swallows it), the relative-URL
rewrite (part_001 line 205) turns the attribute `<img src="/logo.png">`
into the same attribute whose value is the reserved-prefix proxy URL
`proxyOrigin + /--proxy-host--/ + host + /logo.png`, leaving the prefix
untouched and rewriting the remainder independently. -/
theorem c6_relative_attr_rewrite (origin host pre post : String)
    (hq : ∀ c ∈ pre.data, isQuote c = false) :
    rewriteRelAttrs origin host
        (pre ++ ("<img src=" ++ dqS ++ "/logo.png" ++ dqS ++ ">") ++ post) =
      pre ++ ("<img src=" ++ dqS ++
          (origin ++ proxyHostPrefixS ++ host ++ "/logo.png") ++ dqS ++ ">") ++
        rewriteRelAttrs origin host post := by
  apply String.ext
  have hbody :
      (pre ++ ("<img src=" ++ dqS ++ "/logo.png" ++ dqS ++ ">") ++ post).data =
      (pre.data ++ "<img ".data) ++
        ('s' :: ("rc=".data ++
          (dqC :: ("/logo.png".data ++ dqC :: '>' :: post.data)))) := by
    simp only [String.data_append, List.append_assoc]
    refine congrArg (pre.data ++ ·) ?_
    rfl
  show runScan (relStep origin.data host.data)
      (pre ++ ("<img src=" ++ dqS ++ "/logo.png" ++ dqS ++ ">") ++ post).data
      = _
  rw [hbody, runScan_rel_img origin.data host.data pre.data post.data hq]
  have e1 : ("<img ".data : List Char) = ['<', 'i', 'm', 'g', ' '] := rfl
  have e2 : ("src".data : List Char) = ['s', 'r', 'c'] := rfl
  have e3 : ("/logo.png".data : List Char) =
      ['/', 'l', 'o', 'g', 'o', '.', 'p', 'n', 'g'] := rfl
  have e4 : ("logo.png".data : List Char) =
      ['l', 'o', 'g', 'o', '.', 'p', 'n', 'g'] := rfl
  have e5 : ("<img src=".data : List Char) =
      ['<', 'i', 'm', 'g', ' ', 's', 'r', 'c', '='] := rfl
  have e6 : (dqS.data : List Char) = [dqC] := rfl
  have e7 : ((">" : String).data : List Char) = ['>'] := rfl
  simp only [String.data_append, rewriteRelAttrs, e1, e2, e3, e4, e5, e6, e7,
    List.cons_append, List.append_assoc, List.nil_append]

/-- Concrete instance of the (amended) C6 theorem. -/
theorem c6_relative_attr_rewrite_witness :
    rewriteRelAttrs "http://localhost:1337" "www.example.com"
        ("<html>" ++ ("<img src=" ++ dqS ++ "/logo.png" ++ dqS ++ ">") ++
          "</html>") =
      "<html>" ++ ("<img src=" ++ dqS ++
          ("http://localhost:1337" ++ proxyHostPrefixS ++ "www.example.com" ++
            "/logo.png") ++ dqS ++ ">") ++
        rewriteRelAttrs "http://localhost:1337" "www.example.com" "</html>" :=
  c6_relative_attr_rewrite "http://localhost:1337" "www.example.com"
    "<html>" "</html>" (by decide)

/-- C6 counterexample: in the body
`action="x <img src="/logo.png">` the attribute `<img src="/logo.png">` is
present, yet after the rewrite the corresponding src attribute value is
still `/logo.png` — the unterminated `action` value swallowed the `src=`
text, so the rewritten body still contains the raw `src="/logo.png"` and
does not contain the reserved-prefix proxy URL for
`www.example.com/logo.png`. -/
theorem c6_counterexample :
    containsSubB ("<img src=" ++ dqS ++ "/logo.png" ++ dqS ++ ">").data
        ("action=" ++ dqS ++ "x <img src=" ++ dqS ++ "/logo.png" ++ dqS ++
          ">").data = true
    ∧ containsSubB ("src=" ++ dqS ++ "/logo.png" ++ dqS).data
        (rewriteRelAttrs "http://localhost:1337" "www.example.com"
          ("action=" ++ dqS ++ "x <img src=" ++ dqS ++ "/logo.png" ++ dqS ++
            ">")).data = true
    ∧ containsSubB ("http://localhost:1337" ++ proxyHostPrefixS ++
          "www.example.com" ++ "/logo.png").data
        (rewriteRelAttrs "http://localhost:1337" "www.example.com"
          ("action=" ++ dqS ++ "x <img src=" ++ dqS ++ "/logo.png" ++ dqS ++
            ">")).data = false := by
  exact ⟨by decide, by decide, by decide⟩
